import Mathlib

/-!
Verification development for the phaser-tiled-hull library
(src/library/tiled-hull.js). The JavaScript source is shallowly embedded:
pixel and tile coordinates become `Int`, tiles and layers become structures,
the mutable cluster array becomes an explicitly threaded list, and the
unbounded flood-fill recursion becomes a fuel-indexed structural recursion
(lemmas below show the fuel used by `calculateClusters` is always enough,
so the embedding computes exactly what the source's recursion computes).
-/

namespace TiledHull

/-- Coordinates of a 2D point. The source stores points as `[x, y]` arrays
and as `Phaser.Point` values; only exact (integer) coordinates appear in the
claims under study. -/
structure Pt where
  x : Int
  y : Int
deriving DecidableEq, Repr

/-- Embedding of `Phaser.Line` as used by `buildPolygons`: an ordered pair
of endpoints. The source field `end` is a Lean keyword, so it is named
`endp` here. -/
structure Line where
  start : Pt
  endp : Pt
deriving DecidableEq, Repr

/-- Embedding of `checkIfCollinear(line1, line2)` (tiled-hull.js lines
186-196): the exact integer cross-product test
`(dx1 * dy2) - (dy1 * dx2) === 0`. -/
def checkIfCollinear (line1 line2 : Line) : Bool :=
  let dx1 := line1.endp.x - line1.start.x
  let dy1 := line1.endp.y - line1.start.y
  let dx2 := line2.endp.x - line2.start.x
  let dy2 := line2.endp.y - line2.start.y
  dx1 * dy2 - dy1 * dx2 == 0

/-- Body of the segment loop in `buildPolygons` (lines 137-152): the state is
the list of emitted edges together with the growing `currentEdge`
accumulator; a collinear segment extends the accumulator, a corner emits the
accumulator and restarts it at the segment. -/
def collapseStep (acc : List Line × Line) (segment : Line) : List Line × Line :=
  if checkIfCollinear acc.2 segment then
    (acc.1, Line.mk acc.2.start segment.endp)
  else
    (acc.1 ++ [acc.2], segment)

/-- Handling of the closing segment (last point back to the first point) in
`buildPolygons` (lines 154-166): extend-and-push when collinear, otherwise
push both the accumulator and the closing segment. -/
def closeEdges (acc : List Line × Line) (segment : Line) : List Line :=
  if checkIfCollinear acc.2 segment then
    acc.1 ++ [Line.mk acc.2.start segment.endp]
  else
    acc.1 ++ [acc.2, segment]

/-- The wrap-around fix-up of `buildPolygons` (lines 168-177): when the first
and last emitted edges are collinear, `shift` the first edge, `pop` the last
edge and `push` `new Phaser.Line(firstLine.start.x, firstLine.start.y,
lastLine.end.x, lastLine.end.y)`. On a list of fewer than two edges the
source either does nothing (empty) or throws (singleton, since `pop` on the
emptied array yields `undefined`); the singleton case is modelled as the
identity and is not relied on by any claim. -/
def wrapMerge : List Line → List Line
  | e0 :: e1 :: rest =>
    let es := e1 :: rest
    let lastLine := es.getLast (List.cons_ne_nil e1 rest)
    if checkIfCollinear e0 lastLine then
      es.dropLast ++ [Line.mk e0.start lastLine.endp]
    else
      e0 :: es
  | es => es

/-- Embedding of the per-hull body of `buildPolygons` (lines 131-180): the
initial accumulator is the segment from `hullPoints[0]` to `hullPoints[1]`,
the loop runs over the segments `(hullPoints[i-1], hullPoints[i])` for
`i = 1 .. length-1` (the first of which is the initial accumulator itself,
re-absorbed by self-collinearity exactly as in the source), the closing
segment runs from the last point back to `hullPoints[0]`, and then the
wrap-around fix-up is applied. Fewer than two points would make the source
build lines out of `undefined` spreads; that degenerate case is modelled as
the empty edge list and is not relied on by any claim. -/
def buildPolygon (hullPoints : List Pt) : List Line :=
  match hullPoints with
  | p0 :: p1 :: rest =>
    let pts := p0 :: p1 :: rest
    let segs := (pts.zip (p1 :: rest)).map fun pq => Line.mk pq.1 pq.2
    let acc := segs.foldl collapseStep ([], Line.mk p0 p1)
    let closing := Line.mk (pts.getLast (List.cons_ne_nil p0 (p1 :: rest))) p0
    wrapMerge (closeEdges acc closing)
  | _ => []

/-- Embedding of the outer loop of `buildPolygons` (lines 128-184): one edge
list per point hull. -/
def buildPolygons (hulls : List (List Pt)) : List (List Line) :=
  hulls.map buildPolygon

/-- Direction-vector sum of an edge list (the closure quantity of the spec's
closure property: end minus start, summed over all edges). -/
def edgeSum (edges : List Line) : Int × Int :=
  edges.foldl (fun s e => (s.1 + (e.endp.x - e.start.x), s.2 + (e.endp.y - e.start.y))) (0, 0)

/-- Cyclically adjacent pairs of an edge list: each edge with its successor,
the last edge paired with the first. -/
def cyclicPairs (edges : List Line) : List (Line × Line) :=
  edges.zip (edges.rotate 1)

/-- Decides the spec's reducer postcondition: some cyclically adjacent pair
of edges (including the wrap-around pair) passes the collinearity test. -/
def hasCollinearAdjacent (edges : List Line) : Bool :=
  (cyclicPairs edges).any fun pq => checkIfCollinear pq.1 pq.2

/-- Corner points of an axis-aligned square with side `s`, listed in one
consistent cyclic winding starting from `(x, y)` (the order the spec's
rotation-invariance property feeds to the reducer). -/
def squareCorners (x y s : Int) : List Pt :=
  [Pt.mk x y, Pt.mk (x + s) y, Pt.mk (x + s) (y + s), Pt.mk x (y + s)]

/-! ## The Cluster Finder (calculateClusters and its recursive search) -/

/-- The data of a Phaser tile that `tiled-hull.js` reads: its index, its
Tiled properties (looked up by name and used for truthiness), its collide
flag, and its pixel bounds (used by `calculateHullPoints`). -/
structure Tile where
  index : Int
  props : String → Bool
  collides : Bool
  left : Int
  right : Int
  top : Int
  bottom : Int

/-- The three optional matching modes of `phaserTiledHull` (tileIndices,
tileProperty, checkCollide), with the source's `null`/`false` defaults
rendered as `none`/`false`. -/
structure HullOptions where
  tileIndices : Option (List Int)
  tileProperty : Option String
  checkCollide : Bool

/-- A tilemap layer: its dimensions and the tile stored at each in-range
coordinate (`none` models an empty cell). -/
structure TilemapLayer where
  width : Nat
  height : Nat
  tileAt : Nat → Nat → Option Tile

/-- Embedding of `tilemap.getTile(tx, ty, layer.index)`: out-of-range
coordinates yield `null`. Tiles are identified by their coordinates, as in
Phaser, where each cell owns one tile object. -/
def getTile (layer : TilemapLayer) (x y : Int) : Option Tile :=
  if 0 ≤ x ∧ x < (layer.width : Int) ∧ 0 ≤ y ∧ y < (layer.height : Int) then
    layer.tileAt x.toNat y.toNat
  else none

/-- Embedding of the inner `checkTile` of `calculateClusters` (lines 64-75):
no tile fails, otherwise the three configured modes are tried in order and
combined by early-return (logical OR). -/
def checkTile (opts : HullOptions) : Option Tile → Bool
  | none => false
  | some tile =>
    (match opts.tileIndices with
     | some idxs => idxs.contains tile.index
     | none => false) ||
    (match opts.tileProperty with
     | some prop => tile.props prop
     | none => false) ||
    (opts.checkCollide && tile.collides)

/-- Whether the tile at a coordinate passes `checkTile`. -/
def matchesAt (layer : TilemapLayer) (opts : HullOptions) (x y : Int) : Bool :=
  checkTile opts (getTile layer x y)

/-- A grid coordinate, the identity of a tile in a cluster. -/
abbrev Cell := Int × Int

/-- The finite set of matching cells of a layer, the measure that bounds the
flood fill: the source recursion terminates because every recursive call
that proceeds pushes a new matching tile into the cluster. -/
def matchingCells (layer : TilemapLayer) (opts : HullOptions) : Finset Cell :=
  (((Finset.range layer.width) ×ˢ (Finset.range layer.height)).image
    (fun p => ((p.1 : Int), (p.2 : Int)))).filter
    (fun c => matchesAt layer opts c.1 c.2 = true)

/-- Embedding of `recursivelySearchNeighbors(x, y, cluster)` (lines 77-89):
the tile is pushed when it passes `checkTile` and is not already in the
cluster, then the four 4-adjacent neighbours are searched in the source's
order (up, down, right, left), threading the growing cluster through. The
source's unbounded recursion is rendered with a fuel parameter; the lemmas
below show any fuel of at least `(matchingCells layer opts).card` (which
`calculateClusters` always supplies) computes the recursion's exact result. -/
def searchNeighbors (layer : TilemapLayer) (opts : HullOptions) :
    Nat → Cell → List Cell → List Cell
  | 0, _, cluster => cluster
  | fuel + 1, c, cluster =>
    if matchesAt layer opts c.1 c.2 = true ∧ c ∉ cluster then
      let cluster0 := cluster ++ [c]
      let cluster1 := searchNeighbors layer opts fuel (c.1, c.2 - 1) cluster0
      let cluster2 := searchNeighbors layer opts fuel (c.1, c.2 + 1) cluster1
      let cluster3 := searchNeighbors layer opts fuel (c.1 + 1, c.2) cluster2
      searchNeighbors layer opts fuel (c.1 - 1, c.2) cluster3
    else cluster

/-- The scan order of the double loop of `calculateClusters` (lines 52-61):
x outermost from 0 to width, y innermost from 0 to height. -/
def allCells (layer : TilemapLayer) : List Cell :=
  (List.range layer.width).flatMap fun (x : Nat) =>
    (List.range layer.height).map fun (y : Nat) => ((x : Int), (y : Int))

/-- The body of the double loop of `calculateClusters`: a cell that passes
`checkTile` and lies in no already-built cluster (`findTileInClusters`
returning `null`) seeds a new cluster grown by the recursive search. -/
def clusterScan (layer : TilemapLayer) (opts : HullOptions) (fuel : Nat) :
    List Cell → List (List Cell) → List (List Cell)
  | [], clusters => clusters
  | c :: rest, clusters =>
    clusterScan layer opts fuel rest
      (if matchesAt layer opts c.1 c.2 = true ∧ ∀ cl ∈ clusters, c ∉ cl then
        clusters ++ [searchNeighbors layer opts fuel c []]
      else clusters)

/-- Embedding of `calculateClusters(tilemapLayer, ...)` (lines 46-101). The
fuel `width * height` bounds the number of matching cells, so the fuelled
search equals the source's recursion on every seed. -/
def calculateClusters (layer : TilemapLayer) (opts : HullOptions) : List (List Cell) :=
  clusterScan layer opts (layer.width * layer.height) (allCells layer) []

/-- Embedding of `calculateHullPoints(clusters)` (lines 103-126) with the
external `hull.js` collaborator abstracted as `hullFn` (called with
concavity 1 as in the source): the four pixel corners of every tile of the
cluster are collected and handed to the hull function. -/
def calculateHullPoints (layer : TilemapLayer) (hullFn : List Pt → Int → List Pt)
    (clusters : List (List Cell)) : List (List Pt) :=
  clusters.map fun cluster =>
    hullFn (cluster.flatMap fun c =>
      match getTile layer c.1 c.2 with
      | some tile =>
        [Pt.mk tile.left tile.top, Pt.mk tile.right tile.top,
         Pt.mk tile.left tile.bottom, Pt.mk tile.right tile.bottom]
      | none => []) 1

/-- Modelled from the spec: the `PolygonEdge` class lives in
src/library/polygon-edge.js, which is not among the repository's staged
files. Per the spec's Edge Wrapper contract it attaches the owning polygon's
id to an edge (the precomputed normal is omitted here — no claim under study
refers to it). -/
structure PolygonEdge where
  edge : Line
  polygonId : Nat

/-- Embedding of the top-level `phaserTiledHull` (lines 25-44): clusters,
then point hulls, then polygons, then the wrapping loop over
`polyHulls.entries()`. -/
def phaserTiledHull (layer : TilemapLayer) (hullFn : List Pt → Int → List Pt)
    (opts : HullOptions) : List (List PolygonEdge) :=
  let clusters := calculateClusters layer opts
  let pointHulls := calculateHullPoints layer hullFn clusters
  let polyHulls := buildPolygons pointHulls
  polyHulls.enum.map fun ip => ip.2.map fun edge => PolygonEdge.mk edge ip.1

/-- 4-adjacency of grid cells (north, south, east, west — no diagonals). -/
def adj (p q : Cell) : Prop :=
  (p.1 = q.1 ∧ (p.2 = q.2 + 1 ∨ q.2 = p.2 + 1)) ∨
  (p.2 = q.2 ∧ (p.1 = q.1 + 1 ∨ q.1 = p.1 + 1))

/-- A path of 4-adjacent cells from `p` to `q` all of whose cells (the
endpoints included) satisfy `P`. -/
inductive PathIn (P : Cell → Prop) : Cell → Cell → Prop
  | refl (p : Cell) (hp : P p) : PathIn P p p
  | tail (p q r : Cell) (hpq : PathIn P p q) (hqr : adj q r) (hr : P r) : PathIn P p r

/-- Reachability through matching cells: the connected components of this
relation are what the Cluster Finder is meant to compute. -/
def reaches (layer : TilemapLayer) (opts : HullOptions) (p q : Cell) : Prop :=
  PathIn (fun z => matchesAt layer opts z.1 z.2 = true) p q

/-- The recursive search of `calculateClusters` instrumented with its call
depth: the same fuelled recursion as `searchNeighbors`, additionally
returning the depth of the tree of nested `recursivelySearchNeighbors`
invocations (each invocation contributes one stack frame; a leaf call that
fails the check still occupies one frame). -/
def searchNeighborsD (layer : TilemapLayer) (opts : HullOptions) :
    Nat → Cell → List Cell → List Cell × Nat
  | 0, _, cluster => (cluster, 1)
  | fuel + 1, c, cluster =>
    if matchesAt layer opts c.1 c.2 = true ∧ c ∉ cluster then
      let r1 := searchNeighborsD layer opts fuel (c.1, c.2 - 1) (cluster ++ [c])
      let r2 := searchNeighborsD layer opts fuel (c.1, c.2 + 1) r1.1
      let r3 := searchNeighborsD layer opts fuel (c.1 + 1, c.2) r2.1
      let r4 := searchNeighborsD layer opts fuel (c.1 - 1, c.2) r3.1
      (r4.1, 1 + max (max r1.2 r2.2) (max r3.2 r4.2))
    else (cluster, 1)

/-- A tile whose collide flag is set (its other data is irrelevant). -/
def solidTile : Tile :=
  Tile.mk 0 (fun _ => false) true 0 0 0 0

/-- Matching configuration that selects colliding tiles. -/
def collideOptions : HullOptions :=
  HullOptions.mk none none true

/-- A 1-by-n column of colliding tiles: a single cluster of size n. -/
def lineLayer (n : Nat) : TilemapLayer :=
  TilemapLayer.mk 1 n (fun _ _ => some solidTile)

/-- The cluster built while the flood fill walks the first k cells of the
column, in the order the source pushes them. -/
def lineCluster (k : Nat) : List Cell :=
  (List.range k).map fun (j : Nat) => ((0 : Int), (j : Int))

/-- Call depth of the flood fill on the 1-by-n column, launched exactly as
`calculateClusters` launches it (seed (0,0), empty cluster, fuel
width * height). -/
def lineDepth (n : Nat) : Nat :=
  (searchNeighborsD (lineLayer n) collideOptions
    ((lineLayer n).width * (lineLayer n).height) ((0 : Int), (0 : Int)) []).2

/-- A 3-by-1 row whose middle cell is empty: two separate clusters. -/
def gapLayer : TilemapLayer :=
  TilemapLayer.mk 3 1 (fun x _ => if x = 1 then none else some solidTile)

/-- Matching configuration with no mode configured (the source's defaults:
tileIndices = null, tileProperty = null, checkCollide = false). -/
def noModeOptions : HullOptions :=
  HullOptions.mk none none false

/-- The invariant of the cluster-building scan: every built cluster is the
full reachability component of some matching seed, and the built clusters
are pairwise disjoint. -/
def ClustersInv (layer : TilemapLayer) (opts : HullOptions) (cls : List (List Cell)) : Prop :=
  (∀ cl ∈ cls, ∃ s : Cell, matchesAt layer opts s.1 s.2 = true ∧
    ∀ q : Cell, q ∈ cl ↔ reaches layer opts s q) ∧
  cls.Pairwise (fun a b => ∀ q : Cell, q ∈ a → q ∉ b)

/-! ## Lemmas about the flood fill -/

section FloodFill

variable {layer : TilemapLayer} {opts : HullOptions}

theorem searchNeighbors_zero (c : Cell) (cluster : List Cell) :
    searchNeighbors layer opts 0 c cluster = cluster := rfl

theorem searchNeighbors_succ (fuel : Nat) (c : Cell) (cluster : List Cell) :
    searchNeighbors layer opts (fuel + 1) c cluster =
      if matchesAt layer opts c.1 c.2 = true ∧ c ∉ cluster then
        searchNeighbors layer opts fuel (c.1 - 1, c.2)
          (searchNeighbors layer opts fuel (c.1 + 1, c.2)
            (searchNeighbors layer opts fuel (c.1, c.2 + 1)
              (searchNeighbors layer opts fuel (c.1, c.2 - 1) (cluster ++ [c]))))
      else cluster := rfl

theorem clusterScan_nil (fuel : Nat) (cls : List (List Cell)) :
    clusterScan layer opts fuel [] cls = cls := rfl

theorem clusterScan_cons (fuel : Nat) (c : Cell) (rest : List Cell) (cls : List (List Cell)) :
    clusterScan layer opts fuel (c :: rest) cls =
      clusterScan layer opts fuel rest
        (if matchesAt layer opts c.1 c.2 = true ∧ ∀ cl ∈ cls, c ∉ cl then
          cls ++ [searchNeighbors layer opts fuel c []]
        else cls) := rfl

/-- The cluster only grows: everything in the input cluster is in the
search's result. -/
theorem subset_searchNeighbors :
    ∀ (fuel : Nat) (c : Cell) (cluster : List Cell),
      cluster ⊆ searchNeighbors layer opts fuel c cluster := by
  intro fuel
  induction fuel with
  | zero =>
    intro c cluster
    rw [searchNeighbors_zero]
    exact List.Subset.refl _
  | succ fuel ih =>
    intro c cluster
    rw [searchNeighbors_succ]
    by_cases hcond : matchesAt layer opts c.1 c.2 = true ∧ c ∉ cluster
    · rw [if_pos hcond]
      exact ((((List.subset_append_left cluster [c]).trans (ih _ _)).trans
        (ih _ _)).trans (ih _ _)).trans (ih _ _)
    · rw [if_neg hcond]
      exact List.Subset.refl _

/-- Everything the search adds to the cluster is a matching cell. -/
theorem mem_searchNeighbors :
    ∀ (fuel : Nat) (c : Cell) (cluster : List Cell) (q : Cell),
      q ∈ searchNeighbors layer opts fuel c cluster →
      q ∈ cluster ∨ matchesAt layer opts q.1 q.2 = true := by
  intro fuel
  induction fuel with
  | zero => intro c cluster q hq; rw [searchNeighbors_zero] at hq; exact Or.inl hq
  | succ fuel ih =>
    intro c cluster q hq
    rw [searchNeighbors_succ] at hq
    by_cases hcond : matchesAt layer opts c.1 c.2 = true ∧ c ∉ cluster
    · rw [if_pos hcond] at hq
      rcases ih _ _ _ hq with hq | hm
      · rcases ih _ _ _ hq with hq | hm
        · rcases ih _ _ _ hq with hq | hm
          · rcases ih _ _ _ hq with hq | hm
            · rcases List.mem_append.mp hq with hq | hq
              · exact Or.inl hq
              · have : q = c := by simpa using hq
                subst this
                exact Or.inr hcond.1
            · exact Or.inr hm
          · exact Or.inr hm
        · exact Or.inr hm
      · exact Or.inr hm
    · rw [if_neg hcond] at hq
      exact Or.inl hq

/-- A cell is in the matching-cell set exactly when its tile passes the
checks (bounds come for free from `getTile`). -/
theorem mem_matchingCells (c : Cell) :
    c ∈ matchingCells layer opts ↔ matchesAt layer opts c.1 c.2 = true := by
  obtain ⟨cx, cy⟩ := c
  constructor
  · intro h
    exact (Finset.mem_filter.mp h).2
  · intro h
    refine Finset.mem_filter.mpr ⟨?_, h⟩
    have hb : 0 ≤ cx ∧ cx < (layer.width : Int) ∧ 0 ≤ cy ∧ cy < (layer.height : Int) := by
      by_contra hb
      rw [matchesAt, getTile, if_neg hb] at h
      simp [checkTile] at h
    refine Finset.mem_image.mpr ⟨(cx.toNat, cy.toNat), ?_, ?_⟩
    · refine Finset.mem_product.mpr ⟨Finset.mem_range.mpr ?_, Finset.mem_range.mpr ?_⟩
      · omega
      · omega
    · rw [Prod.ext_iff]
      refine ⟨?_, ?_⟩ <;> · show ((Int.toNat _ : Int)) = _; omega

/-- There are at most width * height matching cells: the fuel that
`calculateClusters` hands to the search. -/
theorem matchingCells_card_le :
    (matchingCells layer opts).card ≤ layer.width * layer.height := by
  refine (Finset.card_filter_le _ _).trans ?_
  refine Finset.card_image_le.trans ?_
  rw [Finset.card_product, Finset.card_range, Finset.card_range]

/-- Adding a matching cell not yet in the cluster strictly shrinks the set
of matching cells still outside the cluster (the termination measure of the
source's recursion). -/
theorem card_matching_diff_lt {c : Cell} {cluster : List Cell}
    (hm : matchesAt layer opts c.1 c.2 = true) (hc : c ∉ cluster) :
    (matchingCells layer opts \ (cluster ++ [c]).toFinset).card <
      (matchingCells layer opts \ cluster.toFinset).card := by
  apply Finset.card_lt_card
  constructor
  · refine Finset.sdiff_subset_sdiff (le_refl _) ?_
    intro a ha
    rw [List.mem_toFinset] at ha
    rw [List.mem_toFinset]
    exact List.mem_append_left _ ha
  · intro hsub
    have hcmem : c ∈ matchingCells layer opts \ cluster.toFinset := by
      refine Finset.mem_sdiff.mpr ⟨(mem_matchingCells c).mpr hm, ?_⟩
      rw [List.mem_toFinset]
      exact hc
    have := hsub hcmem
    rw [Finset.mem_sdiff, List.mem_toFinset] at this
    exact this.2 (List.mem_append_right _ (List.mem_singleton_self c))

/-- Growing the cluster can only shrink the measure. -/
theorem card_matching_diff_mono {cluster₁ cluster₂ : List Cell} (hsub : cluster₁ ⊆ cluster₂) :
    (matchingCells layer opts \ cluster₂.toFinset).card ≤
      (matchingCells layer opts \ cluster₁.toFinset).card := by
  refine Finset.card_le_card (Finset.sdiff_subset_sdiff (le_refl _) ?_)
  intro a ha
  rw [List.mem_toFinset] at ha
  rw [List.mem_toFinset]
  exact hsub ha

/-- A matching cell not yet in the cluster is pushed by its own search call
(the `cluster.push(tile)` of the source). -/
theorem self_mem_searchNeighbors {fuel : Nat} {c : Cell} {cluster : List Cell}
    (hm : matchesAt layer opts c.1 c.2 = true) (hc : c ∉ cluster)
    (hfuel : (matchingCells layer opts \ cluster.toFinset).card ≤ fuel) :
    c ∈ searchNeighbors layer opts fuel c cluster := by
  cases fuel with
  | zero =>
    exfalso
    have hcmem : c ∈ matchingCells layer opts \ cluster.toFinset := by
      refine Finset.mem_sdiff.mpr ⟨(mem_matchingCells c).mpr hm, ?_⟩
      rw [List.mem_toFinset]
      exact hc
    have := Finset.card_pos.mpr ⟨c, hcmem⟩
    omega
  | succ fuel =>
    rw [searchNeighbors_succ, if_pos ⟨hm, hc⟩]
    have h0 : c ∈ cluster ++ [c] := List.mem_append_right _ (List.mem_singleton_self c)
    exact subset_searchNeighbors _ _ _ (subset_searchNeighbors _ _ _
      (subset_searchNeighbors _ _ _ (subset_searchNeighbors _ _ _ h0)))

theorem PathIn_end {P : Cell → Prop} {p q : Cell} (h : PathIn P p q) : P q := by
  induction h with
  | refl hp => exact hp
  | tail p' q' hpq' hadj hr ih => exact hr

theorem PathIn_start {P : Cell → Prop} {p q : Cell} (h : PathIn P p q) : P p := by
  induction h with
  | refl hp => exact hp
  | tail p' q' hpq' hadj hr ih => exact ih

theorem PathIn_head {P : Cell → Prop} {p q r : Cell} (hadj : adj p q) (hp : P p)
    (h : PathIn P q r) : PathIn P p r := by
  induction h with
  | refl hs => exact PathIn.tail p p q (PathIn.refl p hp) hadj hs
  | tail s t hst hadj' ht ih => exact PathIn.tail _ _ _ ih hadj' ht

theorem adj_symm {p q : Cell} (h : adj p q) : adj q p := by
  obtain ⟨p1, p2⟩ := p
  obtain ⟨q1, q2⟩ := q
  simp only [adj] at h ⊢
  omega

theorem PathIn_symm {P : Cell → Prop} {p q : Cell} (h : PathIn P p q) : PathIn P q p := by
  induction h with
  | refl hs => exact PathIn.refl p hs
  | tail s t hst hadj ht ih => exact PathIn_head (adj_symm hadj) ht ih

theorem PathIn_trans {P : Cell → Prop} {p q r : Cell} (h1 : PathIn P p q)
    (h2 : PathIn P q r) : PathIn P p r := by
  induction h2 with
  | refl hs => exact h1
  | tail s t hst hadj ht ih => exact PathIn.tail _ _ _ ih hadj ht

theorem PathIn_mono {P Q : Cell → Prop} (hPQ : ∀ z, P z → Q z) {p q : Cell}
    (h : PathIn P p q) : PathIn Q p q := by
  induction h with
  | refl hs => exact PathIn.refl p (hPQ p hs)
  | tail s t hst hadj ht ih => exact PathIn.tail _ _ _ ih hadj (hPQ t ht)

section FloodFillReach

variable {layer : TilemapLayer} {opts : HullOptions}

/-- Closure of the search result: every matching neighbour of a newly added
cell was itself searched, hence added (or already present). This is the
heart of the flood fill: the result is saturated under 4-adjacency. -/
theorem searchNeighbors_closed :
    ∀ (fuel : Nat) (c : Cell) (cluster : List Cell),
      (matchingCells layer opts \ cluster.toFinset).card ≤ fuel →
      ∀ a ∈ searchNeighbors layer opts fuel c cluster, a ∉ cluster →
      ∀ b : Cell, adj a b → matchesAt layer opts b.1 b.2 = true →
      b ∈ searchNeighbors layer opts fuel c cluster := by
  intro fuel
  induction fuel with
  | zero =>
    intro c cluster hfuel a ha hna b hadj hb
    rw [searchNeighbors_zero] at ha
    exact absurd ha hna
  | succ fuel ih =>
    intro c cluster hfuel a ha hna b hadj hb
    by_cases hcond : matchesAt layer opts c.1 c.2 = true ∧ c ∉ cluster
    case neg =>
      rw [searchNeighbors_succ, if_neg hcond] at ha
      exact absurd ha hna
    case pos =>
      rw [searchNeighbors_succ, if_pos hcond] at ha ⊢
      obtain ⟨hm, hcnotin⟩ := hcond
      have hf0 : (matchingCells layer opts \ (cluster ++ [c]).toFinset).card ≤ fuel := by
        have := card_matching_diff_lt hm hcnotin
        omega
      have hsub01 : (cluster ++ [c]) ⊆
          searchNeighbors layer opts fuel (c.1, c.2 - 1) (cluster ++ [c]) :=
        subset_searchNeighbors _ _ _
      set s1 := searchNeighbors layer opts fuel (c.1, c.2 - 1) (cluster ++ [c]) with hs1def
      set s2 := searchNeighbors layer opts fuel (c.1, c.2 + 1) s1 with hs2def
      set s3 := searchNeighbors layer opts fuel (c.1 + 1, c.2) s2 with hs3def
      have hf1 : (matchingCells layer opts \ s1.toFinset).card ≤ fuel :=
        le_trans (card_matching_diff_mono hsub01) hf0
      have hsub12 : s1 ⊆ s2 := subset_searchNeighbors _ _ _
      have hf2 : (matchingCells layer opts \ s2.toFinset).card ≤ fuel :=
        le_trans (card_matching_diff_mono hsub12) hf1
      have hsub23 : s2 ⊆ s3 := subset_searchNeighbors _ _ _
      have hf3 : (matchingCells layer opts \ s3.toFinset).card ≤ fuel :=
        le_trans (card_matching_diff_mono hsub23) hf2
      have hsub34 : s3 ⊆ searchNeighbors layer opts fuel (c.1 - 1, c.2) s3 :=
        subset_searchNeighbors _ _ _
      by_cases ha3 : a ∈ s3
      case neg => exact ih (c.1 - 1, c.2) s3 hf3 a ha ha3 b hadj hb
      case pos =>
      by_cases ha2 : a ∈ s2
      case neg => exact hsub34 (ih (c.1 + 1, c.2) s2 hf2 a ha3 ha2 b hadj hb)
      case pos =>
      by_cases ha1 : a ∈ s1
      case neg => exact hsub34 (hsub23 (ih (c.1, c.2 + 1) s1 hf1 a ha2 ha1 b hadj hb))
      case pos =>
      by_cases ha0 : a ∈ cluster ++ [c]
      case neg =>
        exact hsub34 (hsub23 (hsub12 (ih (c.1, c.2 - 1) (cluster ++ [c]) hf0 a ha1 ha0 b hadj hb)))
      case pos =>
        have hac : a = c := by
          rcases List.mem_append.mp ha0 with h | h
          · exact absurd h hna
          · simpa using h
        subst hac
        obtain ⟨b1, b2⟩ := b
        simp only [adj] at hadj
        rcases hadj with ⟨hx, hy | hy⟩ | ⟨hy, hx | hx⟩
        · -- up neighbour, searched by the first recursive call
          have hbeq : ((b1, b2) : Cell) = (a.1, a.2 - 1) := by
            rw [Prod.mk.injEq]
            exact ⟨by omega, by omega⟩
          by_cases hbin : ((b1, b2) : Cell) ∈ cluster ++ [a]
          · exact hsub34 (hsub23 (hsub12 (hsub01 hbin)))
          · rw [hbeq] at hb hbin ⊢
            exact hsub34 (hsub23 (hsub12 (self_mem_searchNeighbors hb hbin hf0)))
        · -- down neighbour, searched by the second recursive call
          have hbeq : ((b1, b2) : Cell) = (a.1, a.2 + 1) := by
            rw [Prod.mk.injEq]
            exact ⟨by omega, by omega⟩
          by_cases hbin : ((b1, b2) : Cell) ∈ s1
          · exact hsub34 (hsub23 (hsub12 hbin))
          · rw [hbeq] at hb hbin ⊢
            exact hsub34 (hsub23 (self_mem_searchNeighbors hb hbin hf1))
        · -- left neighbour, searched by the fourth recursive call
          have hbeq : ((b1, b2) : Cell) = (a.1 - 1, a.2) := by
            rw [Prod.mk.injEq]
            exact ⟨by omega, by omega⟩
          by_cases hbin : ((b1, b2) : Cell) ∈ s3
          · exact hsub34 hbin
          · rw [hbeq] at hb hbin ⊢
            exact self_mem_searchNeighbors hb hbin hf3
        · -- right neighbour, searched by the third recursive call
          have hbeq : ((b1, b2) : Cell) = (a.1 + 1, a.2) := by
            rw [Prod.mk.injEq]
            exact ⟨by omega, by omega⟩
          by_cases hbin : ((b1, b2) : Cell) ∈ s2
          · exact hsub34 (hsub23 hbin)
          · rw [hbeq] at hb hbin ⊢
            exact hsub34 (self_mem_searchNeighbors hb hbin hf2)

/-- Soundness: every cell the search adds is reachable from the seed through
matching cells. -/
theorem searchNeighbors_reaches :
    ∀ (fuel : Nat) (c : Cell) (cluster : List Cell) (q : Cell),
      q ∈ searchNeighbors layer opts fuel c cluster →
      q ∈ cluster ∨ reaches layer opts c q := by
  intro fuel
  induction fuel with
  | zero =>
    intro c cluster q hq
    rw [searchNeighbors_zero] at hq
    exact Or.inl hq
  | succ fuel ih =>
    intro c cluster q hq
    by_cases hcond : matchesAt layer opts c.1 c.2 = true ∧ c ∉ cluster
    case neg =>
      rw [searchNeighbors_succ, if_neg hcond] at hq
      exact Or.inl hq
    case pos =>
      rw [searchNeighbors_succ, if_pos hcond] at hq
      obtain ⟨hm, hcnotin⟩ := hcond
      have hadj_up : adj c (c.1, c.2 - 1) :=
        Or.inl ⟨rfl, Or.inl (show c.2 = c.2 - 1 + 1 by omega)⟩
      have hadj_down : adj c (c.1, c.2 + 1) := Or.inl ⟨rfl, Or.inr rfl⟩
      have hadj_right : adj c (c.1 + 1, c.2) := Or.inr ⟨rfl, Or.inr rfl⟩
      have hadj_left : adj c (c.1 - 1, c.2) :=
        Or.inr ⟨rfl, Or.inl (show c.1 = c.1 - 1 + 1 by omega)⟩
      rcases ih _ _ _ hq with hq | hr
      · rcases ih _ _ _ hq with hq | hr
        · rcases ih _ _ _ hq with hq | hr
          · rcases ih _ _ _ hq with hq | hr
            · rcases List.mem_append.mp hq with hq | hq
              · exact Or.inl hq
              · have : q = c := by simpa using hq
                subst this
                exact Or.inr (PathIn.refl q hm)
            · exact Or.inr (PathIn_head hadj_up hm hr)
          · exact Or.inr (PathIn_head hadj_down hm hr)
        · exact Or.inr (PathIn_head hadj_right hm hr)
      · exact Or.inr (PathIn_head hadj_left hm hr)

/-- Completeness: every cell reachable from the seed through matching cells
outside the initial cluster is added by the search. -/
theorem reaches_mem_searchNeighbors {fuel : Nat} {c : Cell} {cluster : List Cell}
    (hfuel : (matchingCells layer opts \ cluster.toFinset).card ≤ fuel)
    (hm : matchesAt layer opts c.1 c.2 = true) (hc : c ∉ cluster) {q : Cell}
    (hq : PathIn (fun z => matchesAt layer opts z.1 z.2 = true ∧ z ∉ cluster) c q) :
    q ∈ searchNeighbors layer opts fuel c cluster := by
  induction hq with
  | refl hp => exact self_mem_searchNeighbors hm hc hfuel
  | tail p' q' hpq' hadj hr ih =>
    exact searchNeighbors_closed fuel c cluster hfuel p' ih (PathIn_end hpq').2 q' hadj hr.1

/-- The search from a matching seed over the empty cluster, with the fuel
`calculateClusters` supplies, computes exactly the seed's reachability
component. -/
theorem searchNeighbors_component {s : Cell} (hm : matchesAt layer opts s.1 s.2 = true)
    (q : Cell) :
    q ∈ searchNeighbors layer opts (layer.width * layer.height) s [] ↔
      reaches layer opts s q := by
  constructor
  · intro hq
    rcases searchNeighbors_reaches _ _ _ _ hq with h | h
    · simp at h
    · exact h
  · intro hq
    have hfuel : (matchingCells layer opts \ ([] : List Cell).toFinset).card ≤
        layer.width * layer.height := by
      simpa using @matchingCells_card_le layer opts
    refine reaches_mem_searchNeighbors hfuel hm (by simp) ?_
    exact PathIn_mono (fun z hz => ⟨hz, by simp⟩) hq

/-- Bounds come for free from `getTile`: a matching coordinate is in range. -/
theorem matchesAt_bounds {x y : Int} (h : matchesAt layer opts x y = true) :
    0 ≤ x ∧ x < (layer.width : Int) ∧ 0 ≤ y ∧ y < (layer.height : Int) := by
  by_contra hb
  rw [matchesAt, getTile, if_neg hb] at h
  simp [checkTile] at h

/-- Every matching cell is visited by the scan of `calculateClusters`. -/
theorem mem_allCells_of_matches {q : Cell} (h : matchesAt layer opts q.1 q.2 = true) :
    q ∈ allCells layer := by
  obtain ⟨qx, qy⟩ := q
  have hb := matchesAt_bounds h
  have h1 : qx.toNat ∈ List.range layer.width := List.mem_range.mpr (by omega)
  have h2 : qy.toNat ∈ List.range layer.height := List.mem_range.mpr (by omega)
  have h3 : (((qx.toNat : Int), (qy.toNat : Int)) : Cell) = (qx, qy) := by
    rw [Prod.mk.injEq]
    exact ⟨by omega, by omega⟩
  show (qx, qy) ∈ (List.range layer.width).flatMap fun (x : Nat) =>
    (List.range layer.height).map fun (y : Nat) => ((x : Int), (y : Int))
  refine List.mem_flatMap.mpr ⟨qx.toNat, h1, ?_⟩
  refine List.mem_map.mpr ⟨qy.toNat, h2, h3⟩

/-- Characterization of the scan: the invariant is preserved, built clusters
persist, and every matching scanned cell ends up in some cluster. -/
theorem clusterScan_characterization :
    ∀ (cells : List Cell) (cls : List (List Cell)),
      ClustersInv layer opts cls →
      ClustersInv layer opts (clusterScan layer opts (layer.width * layer.height) cells cls) ∧
      (∀ cl ∈ cls, cl ∈ clusterScan layer opts (layer.width * layer.height) cells cls) ∧
      (∀ q ∈ cells, matchesAt layer opts q.1 q.2 = true →
        ∃ cl ∈ clusterScan layer opts (layer.width * layer.height) cells cls, q ∈ cl) := by
  intro cells
  induction cells with
  | nil =>
    intro cls hInv
    rw [clusterScan_nil]
    exact ⟨hInv, fun cl h => h, by simp⟩
  | cons c rest ih =>
    intro cls hInv
    rw [clusterScan_cons]
    by_cases hcond : matchesAt layer opts c.1 c.2 = true ∧ ∀ cl ∈ cls, c ∉ cl
    case pos =>
      rw [if_pos hcond]
      have hmemc : c ∈ searchNeighbors layer opts (layer.width * layer.height) c [] :=
        (searchNeighbors_component hcond.1 c).mpr (PathIn.refl c hcond.1)
      have hInv' : ClustersInv layer opts
          (cls ++ [searchNeighbors layer opts (layer.width * layer.height) c []]) := by
        constructor
        · intro cl hcl
          rcases List.mem_append.mp hcl with h | h
          · exact hInv.1 cl h
          · have hcl' : cl = searchNeighbors layer opts (layer.width * layer.height) c [] := by
              simpa using h
            subst hcl'
            exact ⟨c, hcond.1, fun q => searchNeighbors_component hcond.1 q⟩
        · rw [List.pairwise_append]
          refine ⟨hInv.2, List.pairwise_singleton _ _, ?_⟩
          intro a ha b hb q hqa hqb
          have hb' : b = searchNeighbors layer opts (layer.width * layer.height) c [] := by
            simpa using hb
          subst hb'
          obtain ⟨s, hs, hchar⟩ := hInv.1 a ha
          have h1 : reaches layer opts s q := (hchar q).mp hqa
          have h2 : reaches layer opts c q := (searchNeighbors_component hcond.1 q).mp hqb
          have h3 : reaches layer opts s c := PathIn_trans h1 (PathIn_symm h2)
          exact hcond.2 a ha ((hchar c).mpr h3)
      obtain ⟨ih1, ih2, ih3⟩ := ih _ hInv'
      refine ⟨ih1, ?_, ?_⟩
      · intro cl hcl
        exact ih2 cl (List.mem_append_left _ hcl)
      · intro q hq hmq
        rcases List.mem_cons.mp hq with rfl | hq'
        · exact ⟨searchNeighbors layer opts (layer.width * layer.height) q [],
            ih2 _ (List.mem_append_right _ (List.mem_singleton_self _)), hmemc⟩
        · exact ih3 q hq' hmq
    case neg =>
      rw [if_neg hcond]
      obtain ⟨ih1, ih2, ih3⟩ := ih cls hInv
      refine ⟨ih1, ih2, ?_⟩
      intro q hq hmq
      rcases List.mem_cons.mp hq with rfl | hq'
      · have hsome : ∃ cl ∈ cls, q ∈ cl := by
          by_contra hno
          push_neg at hno
          exact hcond ⟨hmq, hno⟩
        obtain ⟨cl, hcl, hqin⟩ := hsome
        exact ⟨cl, ih2 cl hcl, hqin⟩
      · exact ih3 q hq' hmq

/-- Strengthening of reachability: every cell of a reachability path is
itself reachable from the path's start. -/
theorem reaches_strengthen {s q : Cell}
    (h : reaches layer opts s q) :
    PathIn (fun z => matchesAt layer opts z.1 z.2 = true ∧ reaches layer opts s z) s q := by
  induction h with
  | refl hp => exact PathIn.refl s ⟨hp, PathIn.refl s hp⟩
  | tail p' q' hpq' hadj hr ih =>
    exact PathIn.tail _ _ _ ih hadj ⟨hr, PathIn.tail _ _ _ hpq' hadj hr⟩

/-- No matching cell is scanned to no effect: clusterScan over cells where
nothing matches changes nothing. -/
theorem clusterScan_no_match (fuel : Nat) :
    ∀ (cells : List Cell) (cls : List (List Cell)),
      (∀ q ∈ cells, matchesAt layer opts q.1 q.2 = false) →
      clusterScan layer opts fuel cells cls = cls := by
  intro cells
  induction cells with
  | nil =>
    intro cls hno
    exact clusterScan_nil _ _
  | cons c rest ih =>
    intro cls hno
    have hfalse : ¬(matchesAt layer opts c.1 c.2 = true ∧ ∀ cl ∈ cls, c ∉ cl) := by
      intro hcond
      exact Bool.noConfusion (hcond.1.symm.trans (hno c (List.mem_cons_self c rest)))
    rw [clusterScan_cons, if_neg hfalse]
    exact ih cls (fun q hq => hno q (List.mem_cons_of_mem c hq))

end FloodFillReach

end FloodFill

section Pipeline

variable {layer : TilemapLayer} {opts : HullOptions}

/-- With no clusters, the whole pipeline returns the empty sequence. -/
theorem phaserTiledHull_eq_nil (hullFn : List Pt → Int → List Pt)
    (hcls : calculateClusters layer opts = []) :
    phaserTiledHull layer hullFn opts = [] := by
  simp only [phaserTiledHull]
  rw [hcls]
  rfl

/-- With no matching mode configured, no tile ever matches. -/
theorem matchesAt_noMode (layer : TilemapLayer) (x y : Int) :
    matchesAt layer noModeOptions x y = false := by
  rw [matchesAt]
  cases getTile layer x y with
  | none => rfl
  | some t => rfl

/-- An empty grid has no cells to scan. -/
theorem allCells_nil (h : layer.width = 0 ∨ layer.height = 0) : allCells layer = [] := by
  rcases h with h | h
  · simp [allCells, h]
  · simp [allCells, h]

end Pipeline

/-! ## Lemmas about the collinearity test and the edge fold -/

/-- Unfolding of the cross-product test as a proposition. -/
theorem checkIfCollinear_iff (line1 line2 : Line) :
    checkIfCollinear line1 line2 = true ↔
      (line1.endp.x - line1.start.x) * (line2.endp.y - line2.start.y) -
        (line1.endp.y - line1.start.y) * (line2.endp.x - line2.start.x) = 0 := by
  simp [checkIfCollinear]

/-- The cross-product test fails exactly when the cross product is nonzero. -/
theorem checkIfCollinear_eq_false (line1 line2 : Line)
    (h : (line1.endp.x - line1.start.x) * (line2.endp.y - line2.start.y) -
        (line1.endp.y - line1.start.y) * (line2.endp.x - line2.start.x) ≠ 0) :
    checkIfCollinear line1 line2 = false := by
  simp [checkIfCollinear, h]

/-- Every segment is collinear with itself under the cross-product test. -/
theorem checkIfCollinear_self (l : Line) : checkIfCollinear l l = true := by
  simp [checkIfCollinear, mul_comm]

/-- Evaluation of the reducer on four pairwise-noncollinear corner points:
no merging happens and the four sides come out in order. -/
theorem buildPolygon_quad (p0 p1 p2 p3 : Pt)
    (h12 : checkIfCollinear (Line.mk p0 p1) (Line.mk p1 p2) = false)
    (h23 : checkIfCollinear (Line.mk p1 p2) (Line.mk p2 p3) = false)
    (h30 : checkIfCollinear (Line.mk p2 p3) (Line.mk p3 p0) = false)
    (hw : checkIfCollinear (Line.mk p0 p1) (Line.mk p3 p0) = false) :
    buildPolygon [p0, p1, p2, p3] =
      [Line.mk p0 p1, Line.mk p1 p2, Line.mk p2 p3, Line.mk p3 p0] := by
  show wrapMerge (closeEdges
      (collapseStep (collapseStep (collapseStep ([], Line.mk p0 p1) (Line.mk p0 p1))
        (Line.mk p1 p2)) (Line.mk p2 p3)) (Line.mk p3 p0)) = _
  rw [show collapseStep ([], Line.mk p0 p1) (Line.mk p0 p1) = ([], Line.mk p0 p1) by
        simp [collapseStep, checkIfCollinear_self],
      show collapseStep ([], Line.mk p0 p1) (Line.mk p1 p2) =
          ([Line.mk p0 p1], Line.mk p1 p2) by simp [collapseStep, h12],
      show collapseStep ([Line.mk p0 p1], Line.mk p1 p2) (Line.mk p2 p3) =
          ([Line.mk p0 p1, Line.mk p1 p2], Line.mk p2 p3) by simp [collapseStep, h23],
      show closeEdges ([Line.mk p0 p1, Line.mk p1 p2], Line.mk p2 p3) (Line.mk p3 p0) =
          [Line.mk p0 p1, Line.mk p1 p2, Line.mk p2 p3, Line.mk p3 p0] by
        simp [closeEdges, h30]]
  simp [wrapMerge, hw]

/-- C8. Feeding the Edge Reducer the 4 corner points of a single axis-aligned
square as a cyclic sequence, with the sequence started at any of the 4
corners, always yields exactly 4 edges, and the 4 edges form the same
rectangle (the same edge set, up to the cyclic order of the output list)
regardless of the starting corner. -/
theorem C8_square_rotation_invariance (x y s : Int) (hs : s ≠ 0) (r : Nat) (hr : r < 4) :
    (buildPolygon ((squareCorners x y s).rotate r)).length = 4 ∧
    (buildPolygon ((squareCorners x y s).rotate r)).Perm
      (buildPolygon (squareCorners x y s)) := by
  have c1 : checkIfCollinear (Line.mk (Pt.mk x y) (Pt.mk (x + s) y))
      (Line.mk (Pt.mk (x + s) y) (Pt.mk (x + s) (y + s))) = false := by
    apply checkIfCollinear_eq_false
    simp only [add_sub_cancel_left, sub_add_cancel_left, sub_self, mul_zero, zero_mul,
      sub_zero, zero_sub, mul_neg, neg_mul, neg_neg, neg_eq_zero, neg_mul_neg]
    exact mul_ne_zero hs hs
  have c2 : checkIfCollinear (Line.mk (Pt.mk (x + s) y) (Pt.mk (x + s) (y + s)))
      (Line.mk (Pt.mk (x + s) (y + s)) (Pt.mk x (y + s))) = false := by
    apply checkIfCollinear_eq_false
    simp only [add_sub_cancel_left, sub_add_cancel_left, sub_self, mul_zero, zero_mul,
      sub_zero, zero_sub, mul_neg, neg_mul, neg_neg, neg_eq_zero, neg_mul_neg]
    exact mul_ne_zero hs hs
  have c3 : checkIfCollinear (Line.mk (Pt.mk (x + s) (y + s)) (Pt.mk x (y + s)))
      (Line.mk (Pt.mk x (y + s)) (Pt.mk x y)) = false := by
    apply checkIfCollinear_eq_false
    simp only [add_sub_cancel_left, sub_add_cancel_left, sub_self, mul_zero, zero_mul,
      sub_zero, zero_sub, mul_neg, neg_mul, neg_neg, neg_eq_zero, neg_mul_neg]
    exact mul_ne_zero hs hs
  have c4 : checkIfCollinear (Line.mk (Pt.mk x (y + s)) (Pt.mk x y))
      (Line.mk (Pt.mk x y) (Pt.mk (x + s) y)) = false := by
    apply checkIfCollinear_eq_false
    simp only [add_sub_cancel_left, sub_add_cancel_left, sub_self, mul_zero, zero_mul,
      sub_zero, zero_sub, mul_neg, neg_mul, neg_neg, neg_eq_zero, neg_mul_neg]
    exact mul_ne_zero hs hs
  have w0 : checkIfCollinear (Line.mk (Pt.mk x y) (Pt.mk (x + s) y))
      (Line.mk (Pt.mk x (y + s)) (Pt.mk x y)) = false := by
    apply checkIfCollinear_eq_false
    simp only [add_sub_cancel_left, sub_add_cancel_left, sub_self, mul_zero, zero_mul,
      sub_zero, zero_sub, mul_neg, neg_mul, neg_neg, neg_eq_zero, neg_mul_neg]
    exact neg_ne_zero.mpr (mul_ne_zero hs hs)
  have w1 : checkIfCollinear (Line.mk (Pt.mk (x + s) y) (Pt.mk (x + s) (y + s)))
      (Line.mk (Pt.mk x y) (Pt.mk (x + s) y)) = false := by
    apply checkIfCollinear_eq_false
    simp only [add_sub_cancel_left, sub_add_cancel_left, sub_self, mul_zero, zero_mul,
      sub_zero, zero_sub, mul_neg, neg_mul, neg_neg, neg_eq_zero, neg_mul_neg]
    exact neg_ne_zero.mpr (mul_ne_zero hs hs)
  have w2 : checkIfCollinear (Line.mk (Pt.mk (x + s) (y + s)) (Pt.mk x (y + s)))
      (Line.mk (Pt.mk (x + s) y) (Pt.mk (x + s) (y + s))) = false := by
    apply checkIfCollinear_eq_false
    simp only [add_sub_cancel_left, sub_add_cancel_left, sub_self, mul_zero, zero_mul,
      sub_zero, zero_sub, mul_neg, neg_mul, neg_neg, neg_eq_zero, neg_mul_neg]
    exact neg_ne_zero.mpr (mul_ne_zero hs hs)
  have w3 : checkIfCollinear (Line.mk (Pt.mk x (y + s)) (Pt.mk x y))
      (Line.mk (Pt.mk (x + s) (y + s)) (Pt.mk x (y + s))) = false := by
    apply checkIfCollinear_eq_false
    simp only [add_sub_cancel_left, sub_add_cancel_left, sub_self, mul_zero, zero_mul,
      sub_zero, zero_sub, mul_neg, neg_mul, neg_neg, neg_eq_zero, neg_mul_neg]
    exact neg_ne_zero.mpr (mul_ne_zero hs hs)
  have hq0 := buildPolygon_quad _ _ _ _ c1 c2 c3 w0
  have hq1 := buildPolygon_quad _ _ _ _ c2 c3 c4 w1
  have hq2 := buildPolygon_quad _ _ _ _ c3 c4 c1 w2
  have hq3 := buildPolygon_quad _ _ _ _ c4 c1 c2 w3
  interval_cases r
  · rw [show (squareCorners x y s).rotate 0 = squareCorners x y s from List.rotate_zero _]
    rw [show squareCorners x y s =
      [Pt.mk x y, Pt.mk (x + s) y, Pt.mk (x + s) (y + s), Pt.mk x (y + s)] from rfl, hq0]
    exact ⟨rfl, List.Perm.refl _⟩
  · rw [show (squareCorners x y s).rotate 1 =
      [Pt.mk (x + s) y, Pt.mk (x + s) (y + s), Pt.mk x (y + s), Pt.mk x y] from rfl]
    rw [show squareCorners x y s =
      [Pt.mk x y, Pt.mk (x + s) y, Pt.mk (x + s) (y + s), Pt.mk x (y + s)] from rfl]
    rw [hq0, hq1]
    refine ⟨rfl, ?_⟩
    show ([Line.mk (Pt.mk (x + s) y) (Pt.mk (x + s) (y + s)),
       Line.mk (Pt.mk (x + s) (y + s)) (Pt.mk x (y + s)),
       Line.mk (Pt.mk x (y + s)) (Pt.mk x y)] ++ [Line.mk (Pt.mk x y) (Pt.mk (x + s) y)]).Perm
      ([Line.mk (Pt.mk x y) (Pt.mk (x + s) y)] ++
       [Line.mk (Pt.mk (x + s) y) (Pt.mk (x + s) (y + s)),
        Line.mk (Pt.mk (x + s) (y + s)) (Pt.mk x (y + s)),
        Line.mk (Pt.mk x (y + s)) (Pt.mk x y)])
    exact List.perm_append_comm
  · rw [show (squareCorners x y s).rotate 2 =
      [Pt.mk (x + s) (y + s), Pt.mk x (y + s), Pt.mk x y, Pt.mk (x + s) y] from rfl]
    rw [show squareCorners x y s =
      [Pt.mk x y, Pt.mk (x + s) y, Pt.mk (x + s) (y + s), Pt.mk x (y + s)] from rfl]
    rw [hq0, hq2]
    refine ⟨rfl, ?_⟩
    show ([Line.mk (Pt.mk (x + s) (y + s)) (Pt.mk x (y + s)),
       Line.mk (Pt.mk x (y + s)) (Pt.mk x y)] ++
      [Line.mk (Pt.mk x y) (Pt.mk (x + s) y),
       Line.mk (Pt.mk (x + s) y) (Pt.mk (x + s) (y + s))]).Perm
      ([Line.mk (Pt.mk x y) (Pt.mk (x + s) y),
        Line.mk (Pt.mk (x + s) y) (Pt.mk (x + s) (y + s))] ++
       [Line.mk (Pt.mk (x + s) (y + s)) (Pt.mk x (y + s)),
        Line.mk (Pt.mk x (y + s)) (Pt.mk x y)])
    exact List.perm_append_comm
  · rw [show (squareCorners x y s).rotate 3 =
      [Pt.mk x (y + s), Pt.mk x y, Pt.mk (x + s) y, Pt.mk (x + s) (y + s)] from rfl]
    rw [show squareCorners x y s =
      [Pt.mk x y, Pt.mk (x + s) y, Pt.mk (x + s) (y + s), Pt.mk x (y + s)] from rfl]
    rw [hq0, hq3]
    refine ⟨rfl, ?_⟩
    show ([Line.mk (Pt.mk x (y + s)) (Pt.mk x y)] ++
      [Line.mk (Pt.mk x y) (Pt.mk (x + s) y),
       Line.mk (Pt.mk (x + s) y) (Pt.mk (x + s) (y + s)),
       Line.mk (Pt.mk (x + s) (y + s)) (Pt.mk x (y + s))]).Perm
      ([Line.mk (Pt.mk x y) (Pt.mk (x + s) y),
        Line.mk (Pt.mk (x + s) y) (Pt.mk (x + s) (y + s)),
        Line.mk (Pt.mk (x + s) (y + s)) (Pt.mk x (y + s))] ++
       [Line.mk (Pt.mk x (y + s)) (Pt.mk x y)])
    exact List.perm_append_comm

/-- Witness for C8 at the unit square with corners (0,0) and (1,1), starting
the cyclic sequence at the second corner. -/
theorem C8_square_rotation_invariance_witness :
    ((1 : Int) ≠ 0 ∧ (1 : Nat) < 4) ∧
    ((buildPolygon ((squareCorners 0 0 1).rotate 1)).length = 4 ∧
     (buildPolygon ((squareCorners 0 0 1).rotate 1)).Perm
       (buildPolygon (squareCorners 0 0 1))) :=
  ⟨⟨by decide, by decide⟩, C8_square_rotation_invariance 0 0 1 (by decide) 1 (by decide)⟩

/-- C7. The Edge Reducer's collinearity decision for two segments with
direction vectors (dx1,dy1) and (dx2,dy2) returns true if and only if
`dx1*dy2 - dy1*dx2` equals exactly 0, with no numeric tolerance applied. -/
theorem C7_collinearity_exact_cross_product (line1 line2 : Line) :
    checkIfCollinear line1 line2 = true ↔
      (line1.endp.x - line1.start.x) * (line2.endp.y - line2.start.y) -
        (line1.endp.y - line1.start.y) * (line2.endp.x - line2.start.x) = 0 :=
  checkIfCollinear_iff line1 line2

/-- C10. The collinearity test accepts any zero-length segment, so inside
the segment loop a duplicated consecutive point is absorbed into the current
accumulator without emitting an edge (the accumulator keeps its start and is
"extended" to the same endpoint); concretely, a square boundary whose
closing point repeats the first point reduces to the four sides with no
zero-length edge emitted for the duplicate. -/
theorem C10_zero_length_segment_absorbed :
    (∀ (l : Line) (p : Pt), checkIfCollinear l (Line.mk p p) = true) ∧
    (∀ (es : List Line) (cur : Line) (q : Pt),
        collapseStep (es, cur) (Line.mk q q) = (es, Line.mk cur.start q)) ∧
    buildPolygon [Pt.mk 0 0, Pt.mk 2 0, Pt.mk 2 2, Pt.mk 0 2, Pt.mk 0 0] =
      [Line.mk (Pt.mk 0 0) (Pt.mk 2 0), Line.mk (Pt.mk 2 0) (Pt.mk 2 2),
       Line.mk (Pt.mk 2 2) (Pt.mk 0 2), Line.mk (Pt.mk 0 2) (Pt.mk 0 0)] := by
  refine ⟨fun l p => by simp [checkIfCollinear], fun es cur q => ?_, by decide⟩
  simp [collapseStep, checkIfCollinear]

/-- C1 (code evaluation at the failing input). On the square boundary
[(1,0),(2,0),(2,2),(0,2),(0,0)], whose cyclic start (1,0) falls midway
through the bottom edge, the wrap-around fix-up fires, but instead of the
claimed merged edge from the last edge's start (0,0) to the first edge's end
(2,0), the code emits the degenerate zero-length edge (1,0)-(1,0) (it merges
`firstLine.start` with `lastLine.end`, which are both the boundary's starting
point), and the claimed merged edge is absent from the output. -/
theorem C1_wrap_merge_code_eval :
    buildPolygon [Pt.mk 1 0, Pt.mk 2 0, Pt.mk 2 2, Pt.mk 0 2, Pt.mk 0 0] =
      [Line.mk (Pt.mk 2 0) (Pt.mk 2 2), Line.mk (Pt.mk 2 2) (Pt.mk 0 2),
       Line.mk (Pt.mk 0 2) (Pt.mk 0 0), Line.mk (Pt.mk 1 0) (Pt.mk 1 0)] ∧
    Line.mk (Pt.mk 0 0) (Pt.mk 2 0) ∉
      buildPolygon [Pt.mk 1 0, Pt.mk 2 0, Pt.mk 2 2, Pt.mk 0 2, Pt.mk 0 0] := by
  constructor
  · decide
  · decide

/-- C2 (code evaluation at the failing input). On the simple, consistently
wound square boundary [(1,0),(2,0),(2,2),(0,2),(0,0)] (≥ 3 points), the
output of the Edge Reducer contains a cyclically adjacent collinear pair of
edges: the zero-length edge produced by the wrap-around fix-up is collinear
with both of its neighbours, so the claimed postcondition fails. -/
theorem C2_adjacent_collinear_in_output :
    hasCollinearAdjacent
      (buildPolygon [Pt.mk 1 0, Pt.mk 2 0, Pt.mk 2 2, Pt.mk 0 2, Pt.mk 0 0]) = true := by
  decide

/-- C4 (code evaluation at the failing input). For the polygon produced from
the boundary [(1,0),(2,0),(2,2),(0,2),(0,0)] — one where the wrap-around
merge fired — the sum of the edges' direction vectors is (-2,0), not the
zero vector: the bottom edge's contribution is lost by the buggy merge. -/
theorem C4_closure_fails_after_wrap_merge :
    edgeSum (buildPolygon [Pt.mk 1 0, Pt.mk 2 0, Pt.mk 2 2, Pt.mk 0 2, Pt.mk 0 0]) = (-2, 0) ∧
    edgeSum (buildPolygon [Pt.mk 1 0, Pt.mk 2 0, Pt.mk 2 2, Pt.mk 0 2, Pt.mk 0 0]) ≠
      (0, 0) := by
  constructor
  · decide
  · decide

section DepthLemmas

variable {layer : TilemapLayer} {opts : HullOptions}

theorem searchNeighborsD_zero (c : Cell) (cluster : List Cell) :
    searchNeighborsD layer opts 0 c cluster = (cluster, 1) := rfl

theorem searchNeighborsD_succ (fuel : Nat) (cx cy : Int) (cluster : List Cell) :
    searchNeighborsD layer opts (fuel + 1) (cx, cy) cluster =
      if matchesAt layer opts cx cy = true ∧ (cx, cy) ∉ cluster then
        ((searchNeighborsD layer opts fuel (cx - 1, cy)
            ((searchNeighborsD layer opts fuel (cx + 1, cy)
              ((searchNeighborsD layer opts fuel (cx, cy + 1)
                ((searchNeighborsD layer opts fuel (cx, cy - 1) (cluster ++ [(cx, cy)])).1)).1)).1)).1,
          1 + max
            (max (searchNeighborsD layer opts fuel (cx, cy - 1) (cluster ++ [(cx, cy)])).2
              (searchNeighborsD layer opts fuel (cx, cy + 1)
                ((searchNeighborsD layer opts fuel (cx, cy - 1) (cluster ++ [(cx, cy)])).1)).2)
            (max
              (searchNeighborsD layer opts fuel (cx + 1, cy)
                ((searchNeighborsD layer opts fuel (cx, cy + 1)
                  ((searchNeighborsD layer opts fuel (cx, cy - 1)
                    (cluster ++ [(cx, cy)])).1)).1)).2
              (searchNeighborsD layer opts fuel (cx - 1, cy)
                ((searchNeighborsD layer opts fuel (cx + 1, cy)
                  ((searchNeighborsD layer opts fuel (cx, cy + 1)
                    ((searchNeighborsD layer opts fuel (cx, cy - 1)
                      (cluster ++ [(cx, cy)])).1)).1)).1)).2))
      else (cluster, 1) := rfl

end DepthLemmas

/-- A cell of the 1-by-n column matches exactly when it is in range. -/
theorem matchesAt_lineLayer (n : Nat) (x y : Int) :
    matchesAt (lineLayer n) collideOptions x y = true ↔
      (x = 0 ∧ 0 ≤ y ∧ y < (n : Int)) := by
  rw [matchesAt, getTile]
  split
  case isTrue h =>
    simp only [lineLayer] at h
    simp only [lineLayer, checkTile, collideOptions, solidTile]
    constructor
    · intro _
      omega
    · intro _
      rfl
  case isFalse h =>
    simp only [lineLayer] at h
    simp only [checkTile]
    constructor
    · intro hfalse
      exact Bool.noConfusion hfalse
    · intro hxy
      omega

/-- The flood fill walks the 1-by-n column cell by cell: launched at cell
(0,k) with the first k cells already collected and fuel n-k, it collects the
whole column and its call tree is exactly n-k+1 deep (each deeper cell adds
one nested invocation). -/
theorem searchNeighborsD_line (n : Nat) :
    ∀ (m k : Nat), 1 ≤ m → k + m = n →
      searchNeighborsD (lineLayer n) collideOptions m ((0 : Int), (k : Int))
        (lineCluster k) = (lineCluster n, m + 1) := by
  intro m
  induction m with
  | zero =>
    intro k h1 h2
    exact absurd h1 (by omega)
  | succ m ih =>
    intro k h1 h2
    have hk : k < n := by omega
    have hcond : matchesAt (lineLayer n) collideOptions (0 : Int) ((k : Int)) = true ∧
        ((0 : Int), (k : Int)) ∉ lineCluster k := by
      constructor
      · rw [matchesAt_lineLayer]
        refine ⟨rfl, by omega, by omega⟩
      · intro hmem
        simp [lineCluster] at hmem
    have hc0 : lineCluster k ++ [((0 : Int), (k : Int))] = lineCluster (k + 1) := by
      simp [lineCluster, List.range_succ]
    have hup : searchNeighborsD (lineLayer n) collideOptions m
        ((0 : Int), (k : Int) - 1) (lineCluster (k + 1)) = (lineCluster (k + 1), 1) := by
      cases m with
      | zero => exact searchNeighborsD_zero _ _
      | succ m' =>
        rw [searchNeighborsD_succ, if_neg]
        intro hcond'
        have hm' := hcond'.1
        rw [matchesAt_lineLayer] at hm'
        refine hcond'.2 ?_
        simp [lineCluster]
        exact ⟨k - 1, by omega, by omega⟩
    have hdown : searchNeighborsD (lineLayer n) collideOptions m
        ((0 : Int), (k : Int) + 1) (lineCluster (k + 1)) = (lineCluster n, m + 1) := by
      cases m with
      | zero =>
        have hkn : k + 1 = n := by omega
        rw [hkn]
        exact searchNeighborsD_zero _ _
      | succ m' =>
        rw [show ((k : Int) + 1) = ((k + 1 : Nat) : Int) by omega]
        exact ih (k + 1) (by omega) (by omega)
    have hright : searchNeighborsD (lineLayer n) collideOptions m
        ((0 : Int) + 1, (k : Int)) (lineCluster n) = (lineCluster n, 1) := by
      cases m with
      | zero => exact searchNeighborsD_zero _ _
      | succ m' =>
        rw [searchNeighborsD_succ, if_neg]
        intro hcond'
        have hm' := hcond'.1
        rw [matchesAt_lineLayer] at hm'
        omega
    have hleft : searchNeighborsD (lineLayer n) collideOptions m
        ((0 : Int) - 1, (k : Int)) (lineCluster n) = (lineCluster n, 1) := by
      cases m with
      | zero => exact searchNeighborsD_zero _ _
      | succ m' =>
        rw [searchNeighborsD_succ, if_neg]
        intro hcond'
        have hm' := hcond'.1
        rw [matchesAt_lineLayer] at hm'
        omega
    rw [searchNeighborsD_succ, if_pos]
    · rw [hc0]
      simp only [hup, hdown, hright, hleft]
      rw [Prod.mk.injEq]
      exact ⟨rfl, by omega⟩
    · exact hcond

/-- Depth of the column flood fill as launched by the Cluster Finder. -/
theorem lineDepth_eq (n : Nat) (hn : 1 ≤ n) : lineDepth n = n + 1 := by
  have h := searchNeighborsD_line n n 0 hn (by omega)
  have e2 : lineCluster 0 = ([] : List Cell) := by simp [lineCluster]
  rw [e2] at h
  show (searchNeighborsD (lineLayer n) collideOptions
    ((lineLayer n).width * (lineLayer n).height) ((0 : Int), (0 : Int)) []).2 = n + 1
  have e1 : (lineLayer n).width * (lineLayer n).height = n := by simp [lineLayer]
  rw [e1]
  rw [show ((0 : Int), (0 : Int)) = (((0 : Int), ((0 : Nat) : Int)) : Cell) from rfl]
  rw [h]

/-- C3. For every grid and every predicate configuration, the clusters
returned by the Cluster Finder partition the set of matching cells exactly:
a cell lies in some cluster exactly when it matches (so every matching cell
is assigned and nothing else is), and no cell lies in two clusters. -/
theorem C3_clusters_partition_matching (layer : TilemapLayer) (opts : HullOptions) :
    (∀ q : Cell, (∃ cl ∈ calculateClusters layer opts, q ∈ cl) ↔
      matchesAt layer opts q.1 q.2 = true) ∧
    (calculateClusters layer opts).Pairwise (fun a b => ∀ q : Cell, q ∈ a → q ∉ b) := by
  have hbase : ClustersInv layer opts [] := ⟨by simp, List.Pairwise.nil⟩
  obtain ⟨hInv, hpres, hcov⟩ := clusterScan_characterization (allCells layer) [] hbase
  constructor
  · intro q
    constructor
    · rintro ⟨cl, hcl, hq⟩
      obtain ⟨s, hs, hchar⟩ := hInv.1 cl hcl
      exact PathIn_end ((hchar q).mp hq)
    · intro hm
      exact hcov q (mem_allCells_of_matches hm) hm
  · exact hInv.2

/-- C5. For every grid and predicate: any two cells of one cluster are
joined by a path of 4-adjacent matching cells lying entirely within that
cluster, and no cell of one cluster is 4-adjacent to a cell of a different
cluster (cluster members are matching by C3, so in particular no two
matching cells in different clusters are 4-adjacent). -/
theorem C5_cluster_connectivity_and_separation (layer : TilemapLayer) (opts : HullOptions) :
    (∀ cl ∈ calculateClusters layer opts, ∀ p ∈ cl, ∀ q ∈ cl,
      PathIn (fun z => matchesAt layer opts z.1 z.2 = true ∧ z ∈ cl) p q) ∧
    (calculateClusters layer opts).Pairwise
      (fun a b => ∀ p ∈ a, ∀ q ∈ b, ¬ adj p q) := by
  have hbase : ClustersInv layer opts [] := ⟨by simp, List.Pairwise.nil⟩
  obtain ⟨hInv, hpres, hcov⟩ := clusterScan_characterization (allCells layer) [] hbase
  constructor
  · intro cl hcl p hp q hq
    obtain ⟨s, hs, hchar⟩ := hInv.1 cl hcl
    have hstrength : ∀ z ∈ cl, PathIn
        (fun z => matchesAt layer opts z.1 z.2 = true ∧ z ∈ cl) s z := by
      intro z hz
      refine PathIn_mono ?_ (reaches_strengthen ((hchar z).mp hz))
      intro w hw
      exact ⟨hw.1, (hchar w).mpr hw.2⟩
    exact PathIn_trans (PathIn_symm (hstrength p hp)) (hstrength q hq)
  · refine List.Pairwise.imp_of_mem ?_ hInv.2
    intro a b ha hb hdisj p hpa q hqb hadj
    obtain ⟨s, hs, hchar⟩ := hInv.1 a ha
    obtain ⟨t, ht, htchar⟩ := hInv.1 b hb
    have h1 : reaches layer opts s p := (hchar p).mp hpa
    have hqm : matchesAt layer opts q.1 q.2 = true := PathIn_end ((htchar q).mp hqb)
    have h2 : reaches layer opts s q := PathIn.tail _ _ _ h1 hadj hqm
    exact hdisj q ((hchar q).mpr h2) hqb

/-- C6. For every grid: with no matching mode configured (no index set, no
named property, collide flag off) the top-level call returns the empty
polygon sequence; likewise any configuration under which no cell matches,
and any empty grid, yield the empty polygon sequence (the embedding is a
total function — no error is raised). -/
theorem C6_empty_configurations_yield_empty (layer : TilemapLayer)
    (hullFn : List Pt → Int → List Pt) :
    phaserTiledHull layer hullFn noModeOptions = [] ∧
    (∀ opts : HullOptions, (∀ x y : Int, matchesAt layer opts x y = false) →
      phaserTiledHull layer hullFn opts = []) ∧
    (∀ opts : HullOptions, layer.width = 0 ∨ layer.height = 0 →
      phaserTiledHull layer hullFn opts = []) := by
  have hgen : ∀ opts : HullOptions, (∀ x y : Int, matchesAt layer opts x y = false) →
      phaserTiledHull layer hullFn opts = [] := by
    intro opts hno
    refine phaserTiledHull_eq_nil hullFn ?_
    exact clusterScan_no_match _ _ _ (fun q hq => hno q.1 q.2)
  refine ⟨hgen noModeOptions (fun x y => matchesAt_noMode layer x y), hgen, ?_⟩
  intro opts h
  refine phaserTiledHull_eq_nil hullFn ?_
  show clusterScan layer opts (layer.width * layer.height) (allCells layer) [] = []
  rw [allCells_nil h, clusterScan_nil]

/-- C9 (amended). The Cluster Finder's traversal is implemented as direct
recursion (`recursivelySearchNeighbors` calls itself on the four
neighbours), not as an explicit work-list: its call depth grows linearly
with cluster size — on a 1-by-n column cluster, launched exactly as
`calculateClusters` launches it, the nesting depth of recursive invocations
is n+1, so it is not bounded independently of cluster size and large
contiguous regions risk call-stack exhaustion. -/
theorem C9_traversal_depth_linear (n : Nat) (hn : 1 ≤ n) : lineDepth n = n + 1 :=
  lineDepth_eq n hn

/-- Witness for C9 on the 3-cell column: the recursion is 4 calls deep. -/
theorem C9_traversal_depth_linear_witness : 1 ≤ 3 ∧ lineDepth 3 = 3 + 1 :=
  ⟨by decide, C9_traversal_depth_linear 3 (by decide)⟩

/-- C9 counterexample: the claim that the traversal's recursion depth is
bounded independently of cluster size is false — no bound B caps the call
depth over all column clusters, since the 1-by-(B+1) column already forces
depth B+2. -/
theorem C9_no_uniform_depth_bound :
    ¬ ∃ B : Nat, ∀ n : Nat, 1 ≤ n → lineDepth n ≤ B := by
  rintro ⟨B, hB⟩
  have h1 := hB (B + 1) (by omega)
  rw [lineDepth_eq (B + 1) (by omega)] at h1
  omega

end TiledHull
